import Mathlib

/-!
Verification of the StackMonitor log pipeline (Go sources) against its
natural-language specification.

Shallow embedding conventions:
* Go strings are Lean `String`s, byte slices are `List Nat`.
* `float64` sampling rates and ratios are modelled as exact rationals `ℚ`;
  the only rate constants the claims touch are `0.1` and `1.0`, for which the
  Go float computations (`rate < 1.0`, `int64(rate*100)`) agree with the
  rational ones.
* `atomic.Uint64` counters are modelled as `Nat` (no claim depends on
  wraparound at 2^64).
* Wall-clock time is an explicit `Int` parameter (seconds); `time.AfterFunc`
  deferred deletions are modelled as firing exactly at their deadline.
* External library calls (`zstd.DecodeAll`, `proto.Marshal`, SHA-256) are
  oracle parameters, since their implementations are not part of this
  repository; all control flow around them is translated from the source.

The repository holds two variants of the Go agent: the file
`src/agents/go-agent/main.go` and the variant with ZSTD compression and
startup backfill that appears in the unnamed sources (part_004).  Where the
two differ, both are embedded, suffixed `MainGo` and `Part004`.
-/

namespace StackMonitor

/-- `logpb.LogEntry` as built by the agents and consumed by the ingestion
service; `fields` is the `map[string]string` carrying at least `service` and
`trace_id`. -/
structure LogEntry where
  timestampNs : Int
  level : String
  message : String
  source : String
  agentId : String
  fields : List (String × String)
deriving Repr, DecidableEq

/-- Go map read `e.Fields[k]`: the zero value `""` when the key is absent. -/
def getField (e : LogEntry) (k : String) : String :=
  match e.fields.lookup k with
  | some v => v
  | none => ""

/-! ## Agent sampler

From `parseLog` in both agent variants: look the level up in
`config.Sampling.BaseRates`, walk `config.Sampling.ContentRules` taking the
first rule whose pattern is a substring of the message, then draw
`n ∈ [0,100)` and drop iff `rate < 1.0 && n > int64(rate*100)`.
`src/agents/go-agent/main.go` defaults an unlisted level to `0.1`;
the part_004 variant defaults it to `1.0`. -/

/-- `strings.Contains s pat` (true when `pat` is empty). -/
def hasSubstr (s pat : String) : Bool :=
  s.toList.tails.any (fun t => pat.toList.isPrefixOf t)

/-- One element of `sampling.content_rules`. -/
structure ContentRule where
  pattern : String
  rate : ℚ
deriving Repr, DecidableEq

/-- The `sampling` section of the agent configuration. -/
structure SamplingConfig where
  baseRates : List (String × ℚ)
  contentRules : List ContentRule
deriving Repr, DecidableEq

/-- The content-rule loop: the first rule whose pattern occurs in the message
overrides the rate (`break` after the first match). -/
def contentOverride (rules : List ContentRule) (message : String) (rate : ℚ) : ℚ :=
  match rules with
  | [] => rate
  | r :: rest =>
      if hasSubstr message r.pattern then r.rate
      else contentOverride rest message rate

/-- Effective sampling rate in `src/agents/go-agent/main.go` (`parseLog`,
lines 115-127): an unlisted level defaults to `0.1`. -/
def effectiveRateMainGo (cfg : SamplingConfig) (level message : String) : ℚ :=
  let base := match cfg.baseRates.lookup level with
    | some r => r
    | none => 1 / 10
  contentOverride cfg.contentRules message base

/-- Effective sampling rate in the part_004 agent variant (`parseLog`):
an unlisted level defaults to `1.0` (comment in source: default to 100%
sampling). -/
def effectiveRatePart004 (cfg : SamplingConfig) (level message : String) : ℚ :=
  let base := match cfg.baseRates.lookup level with
    | some r => r
    | none => 1
  contentOverride cfg.contentRules message base

/-- The keep decision shared by both variants: with `n` the uniform draw in
`[0,100)`, the entry is dropped iff `rate < 1.0` and `n > int64(rate*100)`. -/
def sampleKeep (rate : ℚ) (n : Nat) : Bool :=
  if rate < 1 then decide ((n : ℤ) ≤ ⌊rate * 100⌋) else true

/-! ## Config service (`src/services/config-service/main.go`) -/

/-- The mutable fields of `configServer`: the raw document bytes and the
content-hash version.  The Go zero values are `nil` and `""`. -/
structure ConfigServerState where
  configPayload : List Nat
  configVersion : String
deriving Repr, DecidableEq

/-- State of a freshly constructed `configServer` (before any successful
`loadConfig`). -/
def initialConfigServer : ConfigServerState :=
  { configPayload := [], configVersion := "" }

/-- `loadConfig`: on a read failure the previous state is retained; on
success the payload is stored and the version recomputed (`hash` stands for
the first 8 bytes of SHA-256 rendered in hex). -/
def loadConfig (hash : List Nat → String) (st : ConfigServerState)
    (readResult : Option (List Nat)) : ConfigServerState :=
  match readResult with
  | none => st
  | some payload => { configPayload := payload, configVersion := hash payload }

/-- A sequence of `loadConfig` calls (the 10 s reload loop). -/
def loadConfigs (hash : List Nat → String) (st : ConfigServerState)
    (reads : List (Option (List Nat))) : ConfigServerState :=
  reads.foldl (loadConfig hash) st

/-- `pb.ConfigResponse`. -/
structure ConfigResponse where
  configVersion : String
  configPayload : List Nat
deriving Repr, DecidableEq

/-- `GetConfig`: same version means empty payload, otherwise the stored raw
bytes.  The `agent_id` of the request is not consulted by the handler. -/
def getConfig (st : ConfigServerState) (currentConfigVersion : String) :
    ConfigResponse :=
  if currentConfigVersion = st.configVersion then
    { configVersion := st.configVersion, configPayload := [] }
  else
    { configVersion := st.configVersion, configPayload := st.configPayload }

/-! ## Supporting lemmas for the sampler -/

theorem contentOverride_of_no_match (rules : List ContentRule) (message : String)
    (rate : ℚ) (h : ∀ r ∈ rules, hasSubstr message r.pattern = false) :
    contentOverride rules message rate = rate := by
  induction rules with
  | nil => rfl
  | cons r rest ih =>
      have hr := h r (List.mem_cons_self r rest)
      simp only [contentOverride, hr, Bool.false_eq_true, if_false]
      exact ih (fun q hq => h q (List.mem_cons_of_mem r hq))

theorem loadConfigs_all_fail (hash : List Nat → String)
    (reads : List (Option (List Nat))) (h : ∀ r ∈ reads, r = none) :
    loadConfigs hash initialConfigServer reads = initialConfigServer := by
  induction reads with
  | nil => rfl
  | cons r rest ih =>
      have hr := h r (List.mem_cons_self r rest)
      subst hr
      simp only [loadConfigs, List.foldl_cons, loadConfig]
      exact ih (fun q hq => h q (List.mem_cons_of_mem none hq))

/-! ## Claim C1 -/

/-- C1, counterexample: the claim says an entry whose level is not listed in
`sampling.base_rates` is sampled at rate 1.0 and never dropped.  In
`src/agents/go-agent/main.go` the default is `0.1`, and with draw `n = 50`
(`50 > int64(0.1*100) = 10`) the entry is dropped by sampling. -/
theorem c1_counterexample :
    effectiveRateMainGo { baseRates := [], contentRules := [] } "INFO" "boot ok"
      = 1 / 10 ∧
    sampleKeep
      (effectiveRateMainGo { baseRates := [], contentRules := [] } "INFO" "boot ok")
      50 = false := by
  constructor
  · rfl
  · simp only [effectiveRateMainGo, contentOverride, sampleKeep]
    norm_num

/-- C1, amended: in the part_004 agent variant the default rate for an
unlisted level is 1.0, and when additionally no content rule matches the
message the entry is kept for every possible random draw; the variant in
`src/agents/go-agent/main.go` instead defaults to 0.1, so there such entries
can be dropped (see the counterexample). -/
theorem c1_unlisted_level_kept (cfg : SamplingConfig) (level message : String)
    (n : Nat) (hlevel : cfg.baseRates.lookup level = none)
    (hrules : ∀ r ∈ cfg.contentRules, hasSubstr message r.pattern = false) :
    effectiveRatePart004 cfg level message = 1 ∧
    sampleKeep (effectiveRatePart004 cfg level message) n = true := by
  have hrate : effectiveRatePart004 cfg level message = 1 := by
    simp only [effectiveRatePart004, hlevel]
    exact contentOverride_of_no_match cfg.contentRules message 1 hrules
  refine ⟨hrate, ?_⟩
  rw [hrate]
  simp [sampleKeep]

/-- C1 witness: the amended theorem applied to a concrete configuration
(empty `base_rates`, one content rule that does not match) and draw 99. -/
theorem c1_unlisted_level_kept_witness :
    effectiveRatePart004
      { baseRates := [("ERROR", 1/2)], contentRules := [⟨"payment", 0⟩] }
      "INFO" "boot ok" = 1 ∧
    sampleKeep
      (effectiveRatePart004
        { baseRates := [("ERROR", 1/2)], contentRules := [⟨"payment", 0⟩] }
        "INFO" "boot ok") 99 = true :=
  c1_unlisted_level_kept
    { baseRates := [("ERROR", 1/2)], contentRules := [⟨"payment", 0⟩] }
    "INFO" "boot ok" 99 (by rfl)
    (by intro r hr; simp only [List.mem_singleton] at hr; subst hr; rfl)

/-! ## Claim C5 -/

/-- C5: `GetConfig` returns the current version with an empty payload when the
request already carries that version, the full raw document bytes otherwise,
and a server that has never successfully loaded a document (every read of the
backing file failed) answers with version `""` and an empty payload. -/
theorem c5_getConfig (st : ConfigServerState) (cur : String)
    (hash : List Nat → String) (reads : List (Option (List Nat))) :
    (cur = st.configVersion →
      getConfig st cur = { configVersion := st.configVersion, configPayload := [] }) ∧
    (cur ≠ st.configVersion →
      getConfig st cur =
        { configVersion := st.configVersion, configPayload := st.configPayload }) ∧
    ((∀ r ∈ reads, r = none) →
      getConfig (loadConfigs hash initialConfigServer reads) cur =
        { configVersion := "", configPayload := [] }) := by
  refine ⟨?_, ?_, ?_⟩
  · intro h; simp [getConfig, h]
  · intro h; simp [getConfig, h]
  · intro h
    rw [loadConfigs_all_fail hash reads h]
    by_cases hc : cur = ""
    · simp [getConfig, initialConfigServer, hc]
    · simp [getConfig, initialConfigServer, hc]

/-- C5 witness: the three branches at concrete states (a loaded server asked
with the matching and with a stale version, and a server whose only read
attempt failed). -/
theorem c5_getConfig_witness :
    getConfig { configPayload := [1, 2, 3], configVersion := "v1" } "v1" =
      { configVersion := "v1", configPayload := [] } ∧
    getConfig { configPayload := [1, 2, 3], configVersion := "v1" } "v0" =
      { configVersion := "v1", configPayload := [1, 2, 3] } ∧
    getConfig (loadConfigs (fun _ => "h") initialConfigServer [none]) "v0" =
      { configVersion := "", configPayload := [] } := by
  have h := c5_getConfig { configPayload := [1, 2, 3], configVersion := "v1" }
    "v1" (fun _ => "h") [none]
  have h2 := c5_getConfig { configPayload := [1, 2, 3], configVersion := "v1" }
    "v0" (fun _ => "h") [none]
  exact ⟨h.1 rfl, h2.2.1 (by decide),
    h2.2.2 (by intro r hr; simpa using hr)⟩

/-! ## Agent batcher (`batchSender` in both agent variants)

The batcher keeps a buffer, appends each entry arriving on `logChan` and
flushes via `sendBatch` when the length reaches 100; the 10 s ticker flushes
any non-empty buffer.  A `tick` event models one ticker firing. -/

/-- One event seen by the `select` loop of `batchSender`. -/
inductive BatchEvent
  | entry (e : LogEntry)
  | tick
deriving Repr

/-- One iteration of the `batchSender` loop: the new buffer and the batch
flushed by this event, if any. -/
def batchStep (buffer : List LogEntry) : BatchEvent → List LogEntry × Option (List LogEntry)
  | .entry e =>
      let b := buffer ++ [e]
      if 100 ≤ b.length then ([], some b) else (b, none)
  | .tick =>
      if 0 < buffer.length then ([], some buffer) else (buffer, none)

/-- Run the batcher over a sequence of events, accumulating the flushed
batches in order. -/
def runBatcherAux (buffer : List LogEntry) (flushes : List (List LogEntry)) :
    List BatchEvent → List LogEntry × List (List LogEntry)
  | [] => (buffer, flushes)
  | ev :: rest =>
      match batchStep buffer ev with
      | (b, none) => runBatcherAux b flushes rest
      | (b, some fl) => runBatcherAux b (flushes ++ [fl]) rest

/-- `batchSender` starting from the empty buffer. -/
def runBatcher (events : List BatchEvent) : List LogEntry × List (List LogEntry) :=
  runBatcherAux [] [] events

/-! ## Agent batch ids (`sendBatch` in both agent variants)

`sendBatch` returns immediately on an empty slice; otherwise it increments
`a.batchID` (initially the zero value 0) and stamps the batch with it. -/

/-- `sendBatch`: next `batchID` and the id of the batch emitted, if any. -/
def sendBatchStep (batchID : Nat) (logs : List LogEntry) : Nat × Option Nat :=
  if logs.isEmpty then (batchID, none)
  else (batchID + 1, some (batchID + 1))

/-- The ids of the batches emitted by a sequence of `sendBatch` calls. -/
def emittedIdsAux (batchID : Nat) : List (List LogEntry) → List Nat
  | [] => []
  | logs :: rest =>
      match sendBatchStep batchID logs with
      | (id2, none) => emittedIdsAux id2 rest
      | (id2, some b) => b :: emittedIdsAux id2 rest

/-- Ids emitted within one agent session (fresh `Agent` value, `batchID = 0`). -/
def emittedIds (calls : List (List LogEntry)) : List Nat :=
  emittedIdsAux 0 calls

/-! ## Agent tailer (`tailFile` in both variants)

The file is modelled at line granularity: its content is a `List String` and
the read offset counts consumed lines.  Each `fsnotify` write event appends
some lines and triggers a read from the current offset to end of file whose
non-empty lines are parsed and forwarded (`parse` stands for `a.parseLog`,
whose result also reflects sampling).  `src/agents/go-agent/main.go` starts
with `file.Seek(0, io.SeekEnd)` — offset at end of file, nothing forwarded at
startup; the part_004 variant first drains the whole file through
`bufio.Scanner`, forwarding every line `parseLog` accepts, and only then
creates the watcher. -/

/-- Incremental (watcher-driven) phase: each write event appends `w`, then the
tailer reads from the current offset to EOF and forwards the parseable
non-empty lines. -/
def runTailEvents (parse : String → Option LogEntry) :
    List String → Nat → List (List String) → List LogEntry
  | _, _, [] => []
  | content, off, w :: rest =>
      let content2 := content ++ w
      let newLines := content2.drop off
      ((newLines.filter (fun l => l ≠ "")).filterMap parse)
        ++ runTailEvents parse content2 content2.length rest

/-- `tailFile` of `src/agents/go-agent/main.go`: seek to end of file, then
watch; the initial content is never read. -/
def tailRunMainGo (parse : String → Option LogEntry) (initial : List String)
    (writes : List (List String)) : List LogEntry :=
  runTailEvents parse initial initial.length writes

/-- `tailFile` of the part_004 agent variant: scan the existing file from the
beginning, forwarding each line `parseLog` accepts, then watch for writes
with the offset at end of the initial content. -/
def tailRunPart004 (parse : String → Option LogEntry) (initial : List String)
    (writes : List (List String)) : List LogEntry :=
  initial.filterMap parse ++ runTailEvents parse initial initial.length writes

/-! ## Supporting lemmas for the batcher, batch ids and tailer -/

theorem runBatcherAux_entries_small (buf : List LogEntry)
    (fl : List (List LogEntry)) (es : List LogEntry)
    (h : buf.length + es.length < 100) :
    runBatcherAux buf fl (es.map BatchEvent.entry) = (buf ++ es, fl) := by
  induction es generalizing buf with
  | nil => simp [runBatcherAux]
  | cons e rest ih =>
      have hlen : ¬ 100 ≤ (buf ++ [e]).length := by
        simp only [List.length_append, List.length_cons, List.length_nil] at h ⊢
        omega
      simp only [List.map_cons, runBatcherAux, batchStep, if_neg hlen]
      have h2 : (buf ++ [e]).length + rest.length < 100 := by
        simp only [List.length_append, List.length_cons, List.length_nil] at h ⊢
        omega
      rw [ih (buf ++ [e]) h2, List.append_assoc, List.singleton_append]

theorem runBatcherAux_entries_full (buf : List LogEntry)
    (fl : List (List LogEntry)) (es : List LogEntry) (hne : es ≠ [])
    (h : buf.length + es.length = 100) :
    runBatcherAux buf fl (es.map BatchEvent.entry) = ([], fl ++ [buf ++ es]) := by
  induction es generalizing buf with
  | nil => exact absurd rfl hne
  | cons e rest ih =>
      by_cases hr : rest = []
      · subst hr
        have hlen : 100 ≤ (buf ++ [e]).length := by
          simp only [List.length_append, List.length_cons, List.length_nil] at h ⊢
          omega
        simp only [List.map_cons, List.map_nil, runBatcherAux, batchStep, if_pos hlen]
      · have hlen : ¬ 100 ≤ (buf ++ [e]).length := by
          have hr1 : 1 ≤ rest.length := List.length_pos.mpr hr
          simp only [List.length_append, List.length_cons, List.length_nil] at h ⊢
          omega
        simp only [List.map_cons, runBatcherAux, batchStep, if_neg hlen]
        have h2 : (buf ++ [e]).length + rest.length = 100 := by
          simp only [List.length_append, List.length_cons, List.length_nil] at h ⊢
          omega
        rw [ih (buf ++ [e]) hr h2, List.append_assoc, List.singleton_append]

theorem emittedIdsAux_cons_empty (n : Nat) (logs : List LogEntry)
    (rest : List (List LogEntry)) (he : logs.isEmpty = true) :
    emittedIdsAux n (logs :: rest) = emittedIdsAux n rest := by
  simp [emittedIdsAux, sendBatchStep, he]

theorem emittedIdsAux_cons_nonempty (n : Nat) (logs : List LogEntry)
    (rest : List (List LogEntry)) (he : ¬ logs.isEmpty = true) :
    emittedIdsAux n (logs :: rest) = (n + 1) :: emittedIdsAux (n + 1) rest := by
  simp [emittedIdsAux, sendBatchStep, he]

theorem emittedIdsAux_eq_range (calls : List (List LogEntry)) (n : Nat) :
    emittedIdsAux n calls =
      List.range' (n + 1) (calls.filter (fun l => !l.isEmpty)).length := by
  induction calls generalizing n with
  | nil => rfl
  | cons logs rest ih =>
      by_cases he : logs.isEmpty
      · rw [emittedIdsAux_cons_empty n logs rest he, ih n, List.filter_cons]
        simp [he]
      · rw [emittedIdsAux_cons_nonempty n logs rest he, ih (n + 1), List.filter_cons]
        have hb : (!logs.isEmpty) = true := by simp [he]
        rw [hb, if_pos rfl, List.length_cons, List.range'_succ]

theorem runTailEvents_appended (parse : String → Option LogEntry)
    (content : List String) (writes : List (List String)) :
    runTailEvents parse content content.length writes =
      (writes.map (fun w => (w.filter (fun l => l ≠ "")).filterMap parse)).flatten := by
  induction writes generalizing content with
  | nil => rfl
  | cons w rest ih =>
      simp only [runTailEvents, List.map_cons, List.flatten_cons]
      congr 1
      · rw [List.drop_left]
      · exact ih (content ++ w)

/-! ## Claim C3 -/

/-- A hundred concrete log entries for the C3 counterexample. -/
def mkEntry (i : Nat) : LogEntry :=
  { timestampNs := i, level := "INFO", message := toString i,
    source := "/logs/app.log", agentId := "agent-1", fields := [] }

/-- The first hundred entries in arrival order. -/
def hundredEntries : List LogEntry := (List.range 100).map mkEntry

/-- C3, counterexample: the claim says the 101st kept entry triggers the
size-based flush containing the first 100.  In `batchSender` the check
`len(buffer) >= 100` runs right after the append, so the flush of the first
100 entries already happens when the 100th entry arrives (buffer left empty),
and the arrival of a 101st entry flushes nothing. -/
theorem c3_counterexample :
    runBatcher (hundredEntries.map BatchEvent.entry) = ([], [hundredEntries]) ∧
    batchStep [] (BatchEvent.entry (mkEntry 100)) = ([mkEntry 100], none) := by
  have hne : hundredEntries ≠ [] := by
    intro hcontra
    have hlen := congrArg List.length hcontra
    simp [hundredEntries] at hlen
  constructor
  · simpa using runBatcherAux_entries_full [] [] hundredEntries hne
      (by simp [hundredEntries])
  · rfl

/-- C3, amended: the flush of the first 100 entries is triggered by the 100th
kept entry (not the 101st); in general `batchSender` flushes exactly when an
arrival brings the buffer length to 100 (the flushed batch being the buffer
including that arrival, in arrival order) or when the ticker fires with a
non-empty buffer. -/
theorem c3_flush_characterization :
    (∀ (buffer : List LogEntry) (e : LogEntry),
      batchStep buffer (BatchEvent.entry e) =
        if 100 ≤ buffer.length + 1 then ([], some (buffer ++ [e]))
        else (buffer ++ [e], none)) ∧
    (∀ buffer : List LogEntry,
      batchStep buffer BatchEvent.tick =
        if 0 < buffer.length then ([], some buffer) else (buffer, none)) ∧
    (∀ es : List LogEntry, es.length < 100 →
      runBatcher (es.map BatchEvent.entry) = (es, [])) ∧
    (∀ es : List LogEntry, es.length = 100 →
      runBatcher (es.map BatchEvent.entry) = ([], [es])) := by
  refine ⟨?_, ?_, ?_, ?_⟩
  · intro buffer e
    have hl : (buffer ++ [e]).length = buffer.length + 1 := by simp
    simp only [batchStep, hl]
  · intro buffer; rfl
  · intro es h
    simpa using runBatcherAux_entries_small [] [] es (by simpa using h)
  · intro es h
    have hne : es ≠ [] := by
      intro hnil; rw [hnil] at h; simp at h
    simpa using runBatcherAux_entries_full [] [] es hne (by simpa using h)

/-- C3 witness: the characterization applied to concrete buffers and entry
sequences of lengths 99 and 100. -/
theorem c3_flush_characterization_witness :
    runBatcher (((List.range 99).map mkEntry).map BatchEvent.entry) =
      ((List.range 99).map mkEntry, []) ∧
    runBatcher (((List.range 100).map mkEntry).map BatchEvent.entry) =
      ([], [(List.range 100).map mkEntry]) :=
  ⟨c3_flush_characterization.2.2.1 ((List.range 99).map mkEntry) (by decide),
   c3_flush_characterization.2.2.2 ((List.range 100).map mkEntry) (by decide)⟩

/-! ## Claim C7 -/

/-- C7: within one agent session the emitted `batch_id` values are exactly
`1, 2, …, k` where `k` counts the `sendBatch` calls with a non-empty slice:
strictly increasing, gap-free, first id 1.  (`batchSender` only ever calls
`sendBatch` with a non-empty buffer, and `sendBatch` itself ignores empty
slices without consuming an id.) -/
theorem c7_batch_ids (calls : List (List LogEntry)) :
    emittedIds calls = List.range' 1 (calls.filter (fun l => !l.isEmpty)).length :=
  emittedIdsAux_eq_range calls 0

/-! ## Claim C4 -/

/-- Parse oracle for the C4 counterexample: accepts exactly the line
`"line1"`. -/
def parseOracleC4 (l : String) : Option LogEntry :=
  if l = "line1" then some (mkEntry 0) else none

/-- C4, counterexample: the claim says the tailer first reads the whole file
from the beginning, forwarding every parseable line.  `tailFile` in
`src/agents/go-agent/main.go` seeks to end of file at startup: a file whose
content is the single parseable line `"line1"` yields no forwarded entry,
while the backfilling part_004 variant forwards it. -/
theorem c4_counterexample :
    tailRunMainGo parseOracleC4 ["line1"] [] = [] ∧
    ["line1"].filterMap parseOracleC4 = [mkEntry 0] ∧
    tailRunPart004 parseOracleC4 ["line1"] [] = [mkEntry 0] := by
  refine ⟨rfl, rfl, ?_⟩
  simp [tailRunPart004, runTailEvents, parseOracleC4]

/-- C4, amended: the part_004 agent variant backfills — at startup it forwards
exactly the lines of the existing file that `parseLog` accepts, in file
order, and only afterwards forwards the entries produced by write
notifications; the `src/agents/go-agent/main.go` variant instead seeks to end
of file at startup and forwards only data appended after that. -/
theorem c4_backfill_then_incremental (parse : String → Option LogEntry)
    (initial : List String) (writes : List (List String)) :
    tailRunPart004 parse initial writes =
      initial.filterMap parse ++
        (writes.map (fun w => (w.filter (fun l => l ≠ "")).filterMap parse)).flatten ∧
    tailRunMainGo parse initial writes =
      (writes.map (fun w => (w.filter (fun l => l ≠ "")).filterMap parse)).flatten := by
  constructor
  · unfold tailRunPart004
    rw [runTailEvents_appended]
  · unfold tailRunMainGo
    rw [runTailEvents_appended]

/-! ## Resilience primitives (`src/agents/go-agent/resilience.go`)

`RetryWithBackoff` runs `fn` for `attempt = 0 .. MaxRetries`; a nil error
returns success, a non-retryable error is returned at once, a retryable one
leads to the next attempt (after a backoff sleep, which carries no logical
content here); when the loop ends the last error is returned wrapped.  The
behaviour of `fn` across attempts is modelled as `results : Nat → Option RErr`
(`none` = success of that call). -/

/-- The gRPC status codes distinguished by `isRetryable`; every other code
falls into the `default` branch. -/
inductive GrpcCode
  | unavailable
  | resourceExhausted
  | aborted
  | deadlineExceeded
  | canceled
  | invalidArgument
  | notFound
  | permissionDenied
  | otherCode
deriving Repr, DecidableEq

/-- An error as inspected by `isRetryable`: either one carrying a gRPC
status (the `status.FromError(err)` branch) or a plain error whose message is
scanned for transient substrings. -/
inductive RErr
  | grpcStatus (code : GrpcCode) (msg : String)
  | plain (msg : String)
deriving Repr, DecidableEq

/-- `findSubstring`: scan of every window of `s` of the pattern's length. -/
def findSubstring (s substr : String) : Bool :=
  (List.range (s.length - substr.length + 1)).any
    (fun i => (s.toList.drop i).take substr.length == substr.toList)

/-- The helper `contains` of resilience.go, translated literally: equality,
prefix, suffix, and — only when `len(s) > 2*len(substr)` — a full window
scan. -/
def contains (s substr : String) : Bool :=
  decide (substr.length ≤ s.length) &&
    (s == substr ||
      (decide (substr.length < s.length) &&
        (substr.toList.isPrefixOf s.toList ||
          substr.toList.isSuffixOf s.toList ||
          (decide (substr.length * 2 < s.length) && findSubstring s substr))))

/-- The substring patterns treated as transient for plain errors. -/
def transientPatterns : List String :=
  ["connection refused", "connection reset", "broken pipe", "timeout",
   "deadline exceeded", "temporary failure", "try again"]

/-- `isRetryable`: gRPC codes Unavailable, ResourceExhausted, Aborted and
DeadlineExceeded retry; Canceled, InvalidArgument, NotFound and
PermissionDenied (and the default branch) do not; a plain error retries iff
its message matches a transient pattern. -/
def isRetryable : RErr → Bool
  | .grpcStatus c _ =>
      match c with
      | .unavailable => true
      | .resourceExhausted => true
      | .aborted => true
      | .deadlineExceeded => true
      | _ => false
  | .plain msg => transientPatterns.any (fun p => contains msg p)

/-- Outcome of `RetryWithBackoff`: success, an immediately returned
non-retryable error, or the wrapped last error after exhausting all
attempts. -/
inductive RetryOutcome
  | ok
  | terminal (e : RErr)
  | exhausted (e : RErr)
deriving Repr, DecidableEq

/-- The retry loop from the current attempt with `remaining` further attempts
allowed; returns the outcome and the number of calls made to `fn`. -/
def retryFrom (results : Nat → Option RErr) : Nat → Nat → RetryOutcome × Nat
  | remaining, attempt =>
      match results attempt with
      | none => (.ok, attempt + 1)
      | some e =>
          if isRetryable e then
            match remaining with
            | 0 => (.exhausted e, attempt + 1)
            | r + 1 => retryFrom results r (attempt + 1)
          else (.terminal e, attempt + 1)

/-- `RetryWithBackoff` with `MaxRetries = mr` (loop bound
`attempt <= config.MaxRetries`). -/
def RetryWithBackoff (mr : Nat) (results : Nat → Option RErr) :
    RetryOutcome × Nat :=
  retryFrom results mr 0

/-! ## Supporting lemmas for the retry loop -/

theorem retryFrom_none (results : Nat → Option RErr) (remaining attempt : Nat)
    (h : results attempt = none) :
    retryFrom results remaining attempt = (.ok, attempt + 1) := by
  unfold retryFrom
  rw [h]

theorem retryFrom_terminal_step (results : Nat → Option RErr)
    (remaining attempt : Nat) (e : RErr) (h : results attempt = some e)
    (hr : isRetryable e = false) :
    retryFrom results remaining attempt = (.terminal e, attempt + 1) := by
  unfold retryFrom
  rw [h]
  simp [hr]

theorem retryFrom_zero_retry (results : Nat → Option RErr) (attempt : Nat)
    (e : RErr) (h : results attempt = some e) (hr : isRetryable e = true) :
    retryFrom results 0 attempt = (.exhausted e, attempt + 1) := by
  unfold retryFrom
  rw [h]
  simp [hr]

theorem retryFrom_succ_retry (results : Nat → Option RErr) (r attempt : Nat)
    (e : RErr) (h : results attempt = some e) (hr : isRetryable e = true) :
    retryFrom results (r + 1) attempt = retryFrom results r (attempt + 1) := by
  conv_lhs => unfold retryFrom
  rw [h]
  simp [hr]

theorem retryFrom_calls_le (results : Nat → Option RErr) (remaining attempt : Nat) :
    (retryFrom results remaining attempt).2 ≤ attempt + remaining + 1 := by
  induction remaining generalizing attempt with
  | zero =>
      cases hres : results attempt with
      | none =>
          rw [retryFrom_none results 0 attempt hres]
      | some e =>
          by_cases hr : isRetryable e = true
          · rw [retryFrom_zero_retry results attempt e hres hr]
          · rw [retryFrom_terminal_step results 0 attempt e hres (by simpa using hr)]
  | succ r ih =>
      cases hres : results attempt with
      | none =>
          rw [retryFrom_none results (r + 1) attempt hres]
          show attempt + 1 ≤ attempt + (r + 1) + 1
          omega
      | some e =>
          by_cases hr : isRetryable e = true
          · rw [retryFrom_succ_retry results r attempt e hres hr]
            have := ih (attempt + 1)
            omega
          · rw [retryFrom_terminal_step results (r + 1) attempt e hres (by simpa using hr)]
            show attempt + 1 ≤ attempt + (r + 1) + 1
            omega

theorem retryFrom_terminal (results : Nat → Option RErr) (k : Nat) (e : RErr)
    (remaining attempt : Nat) (hk : k ≤ remaining)
    (he : results (attempt + k) = some e) (hnr : isRetryable e = false)
    (hprev : ∀ j < k, ∃ e2, results (attempt + j) = some e2 ∧ isRetryable e2 = true) :
    retryFrom results remaining attempt = (.terminal e, attempt + k + 1) := by
  induction k generalizing remaining attempt with
  | zero =>
      rw [Nat.add_zero] at he
      rw [retryFrom_terminal_step results remaining attempt e he hnr]
  | succ k ih =>
      obtain ⟨e2, he2, hr2⟩ := hprev 0 (Nat.succ_pos k)
      rw [Nat.add_zero] at he2
      obtain ⟨r, rfl⟩ : ∃ r, remaining = r + 1 := ⟨remaining - 1, by omega⟩
      rw [retryFrom_succ_retry results r attempt e2 he2 hr2]
      have hrec := ih r (attempt + 1) (by omega)
        (by rw [show attempt + 1 + k = attempt + (k + 1) by omega]; exact he)
        (by
          intro j hj
          obtain ⟨e3, he3, hr3⟩ := hprev (j + 1) (by omega)
          exact ⟨e3, by rw [show attempt + 1 + j = attempt + (j + 1) by omega]; exact he3, hr3⟩)
      rw [hrec]
      congr 1
      omega

theorem retryFrom_retried_transient (results : Nat → Option RErr)
    (remaining attempt j : Nat) (hj : attempt ≤ j)
    (hlt : j + 1 < (retryFrom results remaining attempt).2) :
    ∃ e, results j = some e ∧ isRetryable e = true := by
  induction remaining generalizing attempt with
  | zero =>
      exfalso
      cases hres : results attempt with
      | none =>
          rw [retryFrom_none results 0 attempt hres] at hlt
          simp at hlt
          omega
      | some e =>
          by_cases hr : isRetryable e = true
          · rw [retryFrom_zero_retry results attempt e hres hr] at hlt
            simp at hlt
            omega
          · rw [retryFrom_terminal_step results 0 attempt e hres (by simpa using hr)] at hlt
            simp at hlt
            omega
  | succ r ih =>
      cases hres : results attempt with
      | none =>
          exfalso
          rw [retryFrom_none results (r + 1) attempt hres] at hlt
          simp at hlt
          omega
      | some e =>
          by_cases hr : isRetryable e = true
          · rw [retryFrom_succ_retry results r attempt e hres hr] at hlt
            by_cases hja : j = attempt
            · subst hja
              exact ⟨e, hres, hr⟩
            · exact ih (attempt + 1) (by omega) hlt
          · exfalso
            rw [retryFrom_terminal_step results (r + 1) attempt e hres (by simpa using hr)] at hlt
            simp at hlt
            omega

/-! ## Claim C9 -/

/-- C9: `RetryWithBackoff` makes at most `MaxRetries + 1` calls; when some
attempt returns a non-retryable error (all earlier ones having failed
retryably), that error is returned at once as the result, with no further
call; every call after the first happens only because the preceding one
failed with a retryable error; and `isRetryable` classifies
service-unavailable, resource-exhausted, aborted and deadline-exceeded (and
plain connection-refused / connection-reset / timeout messages) as
retryable, while cancelled, invalid-argument, not-found and
permission-denied are terminal. -/
theorem c9_retry_policy :
    (∀ (mr : Nat) (results : Nat → Option RErr),
      (RetryWithBackoff mr results).2 ≤ mr + 1) ∧
    (∀ (mr : Nat) (results : Nat → Option RErr) (k : Nat) (e : RErr),
      results k = some e → isRetryable e = false →
      (∀ j < k, ∃ e2, results j = some e2 ∧ isRetryable e2 = true) →
      k ≤ mr →
      RetryWithBackoff mr results = (RetryOutcome.terminal e, k + 1)) ∧
    (∀ (mr : Nat) (results : Nat → Option RErr) (j : Nat),
      j + 1 < (RetryWithBackoff mr results).2 →
      ∃ e, results j = some e ∧ isRetryable e = true) ∧
    (∀ m : String,
      isRetryable (.grpcStatus .unavailable m) = true ∧
      isRetryable (.grpcStatus .resourceExhausted m) = true ∧
      isRetryable (.grpcStatus .aborted m) = true ∧
      isRetryable (.grpcStatus .deadlineExceeded m) = true ∧
      isRetryable (.grpcStatus .invalidArgument m) = false ∧
      isRetryable (.grpcStatus .notFound m) = false ∧
      isRetryable (.grpcStatus .permissionDenied m) = false ∧
      isRetryable (.grpcStatus .canceled m) = false) ∧
    isRetryable (.plain "connection refused") = true ∧
    isRetryable (.plain "connection reset") = true ∧
    isRetryable (.plain "i/o timeout") = true := by
  refine ⟨?_, ?_, ?_, ?_, ?_, ?_, ?_⟩
  · intro mr results
    have := retryFrom_calls_le results mr 0
    simpa [RetryWithBackoff] using this
  · intro mr results k e he hnr hprev hk
    have := retryFrom_terminal results k e mr 0 hk (by simpa using he) hnr
      (by intro j hj; simpa using hprev j hj)
    simpa [RetryWithBackoff] using this
  · intro mr results j hlt
    exact retryFrom_retried_transient results mr 0 j (Nat.zero_le j) hlt
  · intro m
    refine ⟨rfl, rfl, rfl, rfl, rfl, rfl, rfl, rfl⟩
  · rfl
  · rfl
  · rfl

/-- Concrete run for the C9 witness: the first call fails with
service-unavailable (retryable), the second with not-found (terminal). -/
def c9Results (j : Nat) : Option RErr :=
  if j = 0 then some (.grpcStatus .unavailable "dial")
  else some (.grpcStatus .notFound "missing table")

/-- C9 witness: the bound and the terminal-error clause applied at a
concrete result sequence with `MaxRetries = 5`: the not-found error of the
second call is returned immediately after exactly two calls. -/
theorem c9_retry_policy_witness :
    (RetryWithBackoff 5 c9Results).2 ≤ 6 ∧
    RetryWithBackoff 5 c9Results =
      (RetryOutcome.terminal (.grpcStatus .notFound "missing table"), 2) :=
  ⟨c9_retry_policy.1 5 c9Results,
   c9_retry_policy.2.1 5 c9Results 1 (.grpcStatus .notFound "missing table")
    rfl rfl
    (by
      intro j hj
      have hj0 : j = 0 := by omega
      subst hj0
      exact ⟨.grpcStatus .unavailable "dial", rfl, rfl⟩)
    (by omega)⟩

/-! ## Ingestion service (`src/services/ingestion-service/main.go`)

`isDuplicate` keys the `sync.Map` cache on
`fmt.Sprintf("%s-%s-%s", message, level, service)` (service falling back to
`"unknown"`); a fresh key is stored together with a `time.AfterFunc` that
deletes it 60 s later.  The cache is modelled as a list of `(key, storeTime)`
pairs, deferred deletions as filtering out entries whose timer has reached
its deadline (timers are taken to fire exactly at `storeTime + 60`).
`StreamLogs` is modelled per received batch; `zstd.DecodeAll` and
`proto.Marshal` are oracle parameters `decode` and `marshalSize`. -/

/-- The dedup key: message, level and the `service` field only — the
timestamp is deliberately excluded. -/
def dedupKey (e : LogEntry) : String :=
  let service := if getField e "service" = "" then "unknown" else getField e "service"
  e.message ++ "-" ++ e.level ++ "-" ++ service

/-- The dedup cache: keys with the time they were first stored. -/
abbrev DedupCache := List (String × Int)

/-- Entries whose deferred 60 s deletion has not yet fired at time `now`. -/
def cacheAlive (cache : DedupCache) (now : Int) : DedupCache :=
  cache.filter (fun p => decide (now - p.2 < 60))

/-- `isDuplicate` at time `now`: `LoadOrStore` returns the duplicate flag,
and a fresh key is stored with its deletion scheduled for `now + 60`. -/
def isDuplicate (cache : DedupCache) (now : Int) (e : LogEntry) :
    Bool × DedupCache :=
  let k := dedupKey e
  let alive := cacheAlive cache now
  if alive.any (fun p => p.1 == k) then (true, alive)
  else (false, (k, now) :: alive)

/-- A sequence of dedup checks at the given times, returning the final cache
and the duplicate flags in order. -/
def runDedup : DedupCache → List (Int × LogEntry) → DedupCache × List Bool
  | cache, [] => (cache, [])
  | cache, (t, e) :: rest =>
      let p := isDuplicate cache t e
      let q := runDedup p.2 rest
      (q.1, p.1 :: q.2)

/-- The metric counters of `ingestionServer` (all `atomic.Uint64`). -/
structure Metrics where
  batchesReceived : Nat
  logsReceived : Nat
  logsProcessed : Nat
  logsDuplicate : Nat
  logsInserted : Nat
  insertsFailed : Nat
  bytesReceived : Nat
  bytesDecompressed : Nat
deriving Repr, DecidableEq

/-- All counters start at zero. -/
def Metrics.init : Metrics :=
  { batchesReceived := 0, logsReceived := 0, logsProcessed := 0,
    logsDuplicate := 0, logsInserted := 0, insertsFailed := 0,
    bytesReceived := 0, bytesDecompressed := 0 }

/-- `pb.CompressionType`. -/
inductive CompressionType
  | nocomp
  | zstd
deriving Repr, DecidableEq

/-- `pb.LogBatch`. -/
structure LogBatch where
  agentId : String
  batchId : Nat
  timestampMs : Int
  logs : List LogEntry
  compression : CompressionType
  compressedPayload : List Nat
  originalSize : Nat
  metadata : List (String × String)
deriving Repr, DecidableEq

/-- `pb.AckStatus`. -/
inductive AckStatus
  | success
  | retry
  | drop
deriving Repr, DecidableEq

/-- `pb.Ack` (the server timestamp carries no logical content and is
omitted). -/
structure Ack where
  batchId : Nat
  status : AckStatus
  message : String
deriving Repr, DecidableEq

/-- The per-stream mutable state touched by `StreamLogs`: the metric
counters and the dedup cache. -/
structure ServerState where
  metrics : Metrics
  dedupCache : DedupCache
deriving Repr, DecidableEq

/-- A freshly started ingestion server. -/
def initialServer : ServerState :=
  { metrics := Metrics.init, dedupCache := [] }

/-- The per-entry loop of `StreamLogs`: dedup-check each entry of the batch
in order; non-duplicates are sent to `logChan` (the `submitted` list) and
counted as processed, duplicates are counted as duplicate.  Returns
`(cache, submitted, processedCount, duplicateCount)`. -/
def processEntries (cache : DedupCache) (now : Int) :
    List LogEntry → DedupCache × List LogEntry × Nat × Nat
  | [] => (cache, [], 0, 0)
  | e :: rest =>
      let p := isDuplicate cache now e
      let q := processEntries p.2 now rest
      if p.1 then (q.1, q.2.1, q.2.2.1, q.2.2.2 + 1)
      else (q.1, e :: q.2.1, q.2.2.1 + 1, q.2.2.2)

/-- The SUCCESS ack `"Processed P/N logs"`. -/
def successAck (batch : LogBatch) (processedCount : Nat) : Ack :=
  { batchId := batch.batchId, status := .success,
    message := "Processed " ++ toString processedCount ++ "/"
      ++ toString batch.logs.length ++ " logs" }

/-- Result of handling one received batch: the new server state, the ack
written back on the stream, and the entries submitted to the insert inbox. -/
structure BatchResult where
  state : ServerState
  ack : Ack
  submitted : List LogEntry
deriving Repr, DecidableEq

/-- The tail of the `StreamLogs` loop shared by the compressed and plain
paths: dedup, counters, SUCCESS ack.  In the source `logsToProcess` is
`batch.Logs` on both paths. -/
def finishBatch (m : Metrics) (cache : DedupCache) (now : Int)
    (batch : LogBatch) : BatchResult :=
  let r := processEntries cache now batch.logs
  { state :=
      { metrics :=
          { m with
            logsProcessed := m.logsProcessed + r.2.2.1,
            logsDuplicate := m.logsDuplicate + r.2.2.2 },
        dedupCache := r.1 },
    ack := successAck batch r.2.2.1,
    submitted := r.2.1 }

/-- One iteration of the `StreamLogs` receive loop on batch `batch` at time
`now`.  `decode` stands for `s.decoder.DecodeAll`, `marshalSize` for the
length of `proto.Marshal` of an entry (used only to estimate
`bytes_received` for uncompressed batches). -/
def processBatch (decode : List Nat → Except String (List Nat))
    (marshalSize : LogEntry → Nat) (st : ServerState) (now : Int)
    (batch : LogBatch) : BatchResult :=
  let m0 := { st.metrics with
    batchesReceived := st.metrics.batchesReceived + 1,
    logsReceived := st.metrics.logsReceived + batch.logs.length }
  if batch.compression = CompressionType.zstd ∧ batch.compressedPayload ≠ [] then
    let m1 := { m0 with
      bytesReceived := m0.bytesReceived + batch.compressedPayload.length }
    match decode batch.compressedPayload with
    | .error msg =>
        { state := { st with metrics := m1 },
          ack := { batchId := batch.batchId, status := .retry,
                   message := "Decompression failed: " ++ msg },
          submitted := [] }
    | .ok d =>
        let m2 := { m1 with
          bytesDecompressed := m1.bytesDecompressed + d.length }
        finishBatch m2 st.dedupCache now batch
  else
    let m1 :=
      if batch.logs ≠ [] then
        { m0 with
          bytesReceived := m0.bytesReceived + (batch.logs.map marshalSize).sum }
      else m0
    finishBatch m1 st.dedupCache now batch

/-- The whole receive loop over a list of timed batches: final state, acks in
order, and all submitted entries in order. -/
def processStream (decode : List Nat → Except String (List Nat))
    (marshalSize : LogEntry → Nat) :
    ServerState → List (Int × LogBatch) → ServerState × List Ack × List LogEntry
  | st, [] => (st, [], [])
  | st, (t, b) :: rest =>
      let r := processBatch decode marshalSize st t b
      let q := processStream decode marshalSize r.state rest
      (q.1, r.ack :: q.2.1, r.submitted ++ q.2.2)

/-- `compression_ratio` as computed by `metricsHandler`: defaults to 1.0, and
is `bytes_decompressed / bytes_received` when both are positive (modelled as
an exact rational). -/
def compressionRatio (m : Metrics) : ℚ :=
  if 0 < m.bytesReceived ∧ 0 < m.bytesDecompressed then
    (m.bytesDecompressed : ℚ) / (m.bytesReceived : ℚ)
  else 1

/-! ## Supporting lemmas for the dedup cache -/

theorem mem_cacheAlive (cache : DedupCache) (now : Int) (p : String × Int) :
    p ∈ cacheAlive cache now ↔ p ∈ cache ∧ now - p.2 < 60 := by
  simp [cacheAlive]

theorem isDuplicate_mem_of_mem (cache : DedupCache) (now : Int) (e : LogEntry)
    (p : String × Int) (hp : p ∈ cache) (ht : now - p.2 < 60) :
    p ∈ (isDuplicate cache now e).2 := by
  have hmem : p ∈ cacheAlive cache now := (mem_cacheAlive cache now p).mpr ⟨hp, ht⟩
  simp only [isDuplicate]
  by_cases hany : (cacheAlive cache now).any (fun q => q.1 == dedupKey e) = true
  · simp [hany, hmem]
  · simp [hany, hmem]

theorem isDuplicate_true_of_mem (cache : DedupCache) (now : Int) (e : LogEntry)
    (t0 : Int) (hp : (dedupKey e, t0) ∈ cache) (ht : now - t0 < 60) :
    (isDuplicate cache now e).1 = true := by
  have hmem : (dedupKey e, t0) ∈ cacheAlive cache now :=
    (mem_cacheAlive cache now (dedupKey e, t0)).mpr ⟨hp, ht⟩
  have hany : (cacheAlive cache now).any (fun q => q.1 == dedupKey e) = true :=
    List.any_eq_true.mpr ⟨(dedupKey e, t0), hmem, by simp⟩
  simp [isDuplicate, hany]

theorem isDuplicate_false_mem (cache : DedupCache) (now : Int) (e : LogEntry)
    (h : (isDuplicate cache now e).1 = false) :
    (dedupKey e, now) ∈ (isDuplicate cache now e).2 := by
  by_cases hany : (cacheAlive cache now).any (fun q => q.1 == dedupKey e) = true
  · exfalso
    simp [isDuplicate, hany] at h
  · simp [isDuplicate, hany]

theorem runDedup_mem_of_mem (evs : List (Int × LogEntry)) (cache : DedupCache)
    (p : String × Int) (hp : p ∈ cache) (ht : ∀ q ∈ evs, q.1 - p.2 < 60) :
    p ∈ (runDedup cache evs).1 := by
  induction evs generalizing cache with
  | nil => simpa [runDedup] using hp
  | cons q rest ih =>
      obtain ⟨t, e⟩ := q
      simp only [runDedup]
      exact ih (isDuplicate cache t e).2
        (isDuplicate_mem_of_mem cache t e p hp
          (ht (t, e) (List.mem_cons_self (t, e) rest)))
        (fun q2 hq2 => ht q2 (List.mem_cons_of_mem (t, e) hq2))

theorem isDuplicate_key_inv (cache : DedupCache) (now : Int) (e : LogEntry)
    (k : String) (t1 : Int) (hne : dedupKey e ≠ k)
    (hinv : ∀ p ∈ cache, p.1 = k → p.2 = t1) :
    ∀ p ∈ (isDuplicate cache now e).2, p.1 = k → p.2 = t1 := by
  intro p hp hpk
  by_cases hany : (cacheAlive cache now).any (fun q => q.1 == dedupKey e) = true
  · simp only [isDuplicate, hany, if_true] at hp
    exact hinv p ((mem_cacheAlive cache now p).mp hp).1 hpk
  · simp only [isDuplicate, hany, if_false, Bool.false_eq_true, List.mem_cons] at hp
    rcases hp with h1 | h2
    · exfalso
      apply hne
      rw [← hpk, h1]
    · exact hinv p ((mem_cacheAlive cache now p).mp h2).1 hpk

theorem runDedup_key_inv (evs : List (Int × LogEntry)) (cache : DedupCache)
    (k : String) (t1 : Int) (hne : ∀ q ∈ evs, dedupKey q.2 ≠ k)
    (hinv : ∀ p ∈ cache, p.1 = k → p.2 = t1) :
    ∀ p ∈ (runDedup cache evs).1, p.1 = k → p.2 = t1 := by
  induction evs generalizing cache with
  | nil => simpa [runDedup] using hinv
  | cons q rest ih =>
      obtain ⟨t, e⟩ := q
      simp only [runDedup]
      exact ih (isDuplicate cache t e).2
        (fun q2 hq2 => hne q2 (List.mem_cons_of_mem (t, e) hq2))
        (isDuplicate_key_inv cache t e k t1
          (hne (t, e) (List.mem_cons_self (t, e) rest)) hinv)

theorem isDuplicate_false_of_expired (cache : DedupCache) (now : Int)
    (e : LogEntry) (t1 : Int)
    (hinv : ∀ p ∈ cache, p.1 = dedupKey e → p.2 = t1) (ht : 60 ≤ now - t1) :
    (isDuplicate cache now e).1 = false := by
  have hany : (cacheAlive cache now).any (fun q => q.1 == dedupKey e) = false := by
    rw [Bool.eq_false_iff]
    intro hcontra
    obtain ⟨q, hq, hbeq⟩ := List.any_eq_true.mp hcontra
    have hqk : q.1 = dedupKey e := by simpa using hbeq
    have hq2 := (mem_cacheAlive cache now q).mp hq
    have := hinv q hq2.1 hqk
    omega
  simp [isDuplicate, hany]

theorem isDuplicate_fresh_key_inv (cache : DedupCache) (now : Int)
    (e : LogEntry) (h : (isDuplicate cache now e).1 = false) :
    ∀ p ∈ (isDuplicate cache now e).2, p.1 = dedupKey e → p.2 = now := by
  intro p hp hpk
  by_cases hany : (cacheAlive cache now).any (fun q => q.1 == dedupKey e) = true
  · exfalso
    simp [isDuplicate, hany] at h
  · simp only [isDuplicate, hany, if_false, Bool.false_eq_true, List.mem_cons] at hp
    rcases hp with h1 | h2
    · rw [h1]
    · exfalso
      apply hany
      exact List.any_eq_true.mpr ⟨p, h2, by simp [hpk]⟩

/-! ## Claim C2 -/

/-- C2: the dedup key is derived from message, level and service only (so
entries differing solely in the timestamp, or any other field, collapse); a
tuple first sighted at `t1` (check admitted it) is dropped by any later check
of an identical tuple at `t2` with `t2 - t1 < 60`, whatever other entries the
cache processed in between; and once 60 s have elapsed since the first
sighting with no re-occurrence of the tuple in between, the next occurrence
is admitted afresh. -/
theorem c2_dedup_window :
    (∀ e1 e2 : LogEntry, e1.message = e2.message → e1.level = e2.level →
      getField e1 "service" = getField e2 "service" →
      dedupKey e1 = dedupKey e2) ∧
    (∀ (c0 : DedupCache) (t1 : Int) (e1 : LogEntry)
      (mids : List (Int × LogEntry)) (t2 : Int) (e2 : LogEntry),
      (isDuplicate c0 t1 e1).1 = false →
      dedupKey e2 = dedupKey e1 →
      (∀ p ∈ mids, t1 ≤ p.1 ∧ p.1 ≤ t2) →
      t2 - t1 < 60 → t1 ≤ t2 →
      (isDuplicate (runDedup (isDuplicate c0 t1 e1).2 mids).1 t2 e2).1 = true) ∧
    (∀ (c0 : DedupCache) (t1 : Int) (e1 : LogEntry)
      (mids : List (Int × LogEntry)) (t2 : Int) (e2 : LogEntry),
      (isDuplicate c0 t1 e1).1 = false →
      dedupKey e2 = dedupKey e1 →
      (∀ p ∈ mids, dedupKey p.2 ≠ dedupKey e1) →
      60 ≤ t2 - t1 →
      (isDuplicate (runDedup (isDuplicate c0 t1 e1).2 mids).1 t2 e2).1 = false) := by
  refine ⟨?_, ?_, ?_⟩
  · intro e1 e2 hm hl hs
    simp only [dedupKey, hm, hl, hs]
  · intro c0 t1 e1 mids t2 e2 h1 hkey hmid hwin hle
    have hmem : (dedupKey e1, t1) ∈ (runDedup (isDuplicate c0 t1 e1).2 mids).1 := by
      apply runDedup_mem_of_mem mids (isDuplicate c0 t1 e1).2 (dedupKey e1, t1)
        (isDuplicate_false_mem c0 t1 e1 h1)
      intro q hq
      have := hmid q hq
      omega
    exact isDuplicate_true_of_mem _ t2 e2 t1 (by rw [hkey]; exact hmem) (by omega)
  · intro c0 t1 e1 mids t2 e2 h1 hkey hmids hexp
    have hinv : ∀ p ∈ (runDedup (isDuplicate c0 t1 e1).2 mids).1,
        p.1 = dedupKey e1 → p.2 = t1 :=
      runDedup_key_inv mids (isDuplicate c0 t1 e1).2 (dedupKey e1) t1 hmids
        (isDuplicate_fresh_key_inv c0 t1 e1 h1)
    apply isDuplicate_false_of_expired _ t2 e2 t1
    · intro p hp hpk
      exact hinv p hp (by rw [← hkey]; exact hpk)
    · omega

/-- An ERROR entry for the witnesses. -/
def entryA : LogEntry :=
  { timestampNs := 1000, level := "ERROR", message := "db down",
    source := "/logs/app.log", agentId := "agent-1",
    fields := [("service", "payments"), ("trace_id", "t1")] }

/-- The same (message, level, service) tuple as `entryA`, with a different
timestamp, source, agent and trace id. -/
def entryB : LogEntry :=
  { timestampNs := 2000, level := "ERROR", message := "db down",
    source := "/logs/other.log", agentId := "agent-2",
    fields := [("service", "payments"), ("trace_id", "t2")] }

/-- C2 witness: keys of `entryA` and `entryB` agree; after `entryA` is first
sighted at t = 0 on an empty cache, `entryB` is dropped at t = 30 and
admitted at t = 60. -/
theorem c2_dedup_window_witness :
    dedupKey entryA = dedupKey entryB ∧
    (isDuplicate (runDedup (isDuplicate [] 0 entryA).2 []).1 30 entryB).1 = true ∧
    (isDuplicate (runDedup (isDuplicate [] 0 entryA).2 []).1 60 entryB).1 = false :=
  ⟨c2_dedup_window.1 entryA entryB rfl rfl rfl,
   c2_dedup_window.2.1 [] 0 entryA [] 30 entryB rfl rfl
    (by intro p hp; simp at hp) (by decide) (by decide),
   c2_dedup_window.2.2 [] 0 entryA [] 60 entryB rfl rfl
    (by intro p hp; simp at hp) (by decide)⟩

/-! ## Supporting lemmas for the stream receiver -/

theorem processBatch_zstd_error (decode : List Nat → Except String (List Nat))
    (marshalSize : LogEntry → Nat) (st : ServerState) (now : Int)
    (batch : LogBatch) (msg : String)
    (hc : batch.compression = CompressionType.zstd)
    (hp : batch.compressedPayload ≠ [])
    (hd : decode batch.compressedPayload = Except.error msg) :
    processBatch decode marshalSize st now batch =
      { state :=
          { st with
            metrics :=
              { st.metrics with
                batchesReceived := st.metrics.batchesReceived + 1,
                logsReceived := st.metrics.logsReceived + batch.logs.length,
                bytesReceived :=
                  st.metrics.bytesReceived + batch.compressedPayload.length } },
        ack := { batchId := batch.batchId, status := .retry,
                 message := "Decompression failed: " ++ msg },
        submitted := [] } := by
  simp only [processBatch]
  rw [if_pos (And.intro hc hp), hd]

theorem processBatch_zstd_ok (decode : List Nat → Except String (List Nat))
    (marshalSize : LogEntry → Nat) (st : ServerState) (now : Int)
    (batch : LogBatch) (d : List Nat)
    (hc : batch.compression = CompressionType.zstd)
    (hp : batch.compressedPayload ≠ [])
    (hd : decode batch.compressedPayload = Except.ok d) :
    processBatch decode marshalSize st now batch =
      finishBatch
        { st.metrics with
          batchesReceived := st.metrics.batchesReceived + 1,
          logsReceived := st.metrics.logsReceived + batch.logs.length,
          bytesReceived := st.metrics.bytesReceived + batch.compressedPayload.length,
          bytesDecompressed := st.metrics.bytesDecompressed + d.length }
        st.dedupCache now batch := by
  simp only [processBatch]
  rw [if_pos (And.intro hc hp), hd]

theorem processEntries_submitted_sublist (es : List LogEntry)
    (cache : DedupCache) (now : Int) :
    (processEntries cache now es).2.1.Sublist es := by
  induction es generalizing cache with
  | nil => simp [processEntries]
  | cons e rest ih =>
      simp only [processEntries]
      by_cases hdup : (isDuplicate cache now e).1 = true
      · rw [if_pos hdup]
        exact (ih (isDuplicate cache now e).2).cons e
      · rw [if_neg hdup]
        exact (ih (isDuplicate cache now e).2).cons₂ e

theorem processStream_bytes_mono (decode : List Nat → Except String (List Nat))
    (marshalSize : LogEntry → Nat) (batches : List (Int × LogBatch))
    (st : ServerState)
    (h : ∀ p ∈ batches, p.2.compression = CompressionType.zstd ∧
      p.2.compressedPayload ≠ [] ∧
      ∃ d, decode p.2.compressedPayload = Except.ok d ∧
        p.2.compressedPayload.length ≤ d.length)
    (hst : st.metrics.bytesReceived ≤ st.metrics.bytesDecompressed) :
    (processStream decode marshalSize st batches).1.metrics.bytesReceived ≤
      (processStream decode marshalSize st batches).1.metrics.bytesDecompressed := by
  induction batches generalizing st with
  | nil => simpa [processStream] using hst
  | cons p rest ih =>
      obtain ⟨t, b⟩ := p
      obtain ⟨hc, hp, d, hd, hlen⟩ := h (t, b) (List.mem_cons_self (t, b) rest)
      simp only [processStream]
      refine ih _ (fun q hq => h q (List.mem_cons_of_mem (t, b) hq)) ?_
      rw [processBatch_zstd_ok decode marshalSize st t b d hc hp hd]
      simp only [finishBatch]
      have hlen2 : b.compressedPayload.length ≤ d.length := hlen
      omega

theorem one_le_compressionRatio (m : Metrics)
    (h : m.bytesReceived ≤ m.bytesDecompressed) :
    (1 : ℚ) ≤ compressionRatio m := by
  unfold compressionRatio
  by_cases hc : 0 < m.bytesReceived ∧ 0 < m.bytesDecompressed
  · rw [if_pos hc]
    rw [le_div_iff₀ (by exact_mod_cast hc.1)]
    rw [one_mul]
    exact_mod_cast h
  · rw [if_neg hc]

/-! ## Claim C10 -/

/-- C10: for a ZSTD batch whose payload decodes successfully, the entries
that get dedup-checked and submitted to the insert inbox are exactly those of
the batch's `Logs` field (the submitted list is the non-duplicate sublist of
`batch.logs` in order, via `processEntries` on `batch.logs`), and the decoded
payload `d` appears in the result only through the `bytes_decompressed`
counter — never as store rows. -/
theorem c10_decoded_bytes_only_metrics (decode : List Nat → Except String (List Nat))
    (marshalSize : LogEntry → Nat) (st : ServerState) (now : Int)
    (batch : LogBatch) (d : List Nat)
    (hc : batch.compression = CompressionType.zstd)
    (hp : batch.compressedPayload ≠ [])
    (hd : decode batch.compressedPayload = Except.ok d) :
    processBatch decode marshalSize st now batch =
      { state :=
          { metrics :=
              { st.metrics with
                batchesReceived := st.metrics.batchesReceived + 1,
                logsReceived := st.metrics.logsReceived + batch.logs.length,
                bytesReceived :=
                  st.metrics.bytesReceived + batch.compressedPayload.length,
                bytesDecompressed := st.metrics.bytesDecompressed + d.length,
                logsProcessed := st.metrics.logsProcessed +
                  (processEntries st.dedupCache now batch.logs).2.2.1,
                logsDuplicate := st.metrics.logsDuplicate +
                  (processEntries st.dedupCache now batch.logs).2.2.2 },
            dedupCache := (processEntries st.dedupCache now batch.logs).1 },
        ack := successAck batch (processEntries st.dedupCache now batch.logs).2.2.1,
        submitted := (processEntries st.dedupCache now batch.logs).2.1 } ∧
    (processBatch decode marshalSize st now batch).submitted.Sublist batch.logs := by
  have heq := processBatch_zstd_ok decode marshalSize st now batch d hc hp hd
  constructor
  · rw [heq]
    rfl
  · rw [heq]
    simp only [finishBatch]
    exact processEntries_submitted_sublist batch.logs st.dedupCache now

/-- Concrete ZSTD batch for the C10 witness: two entries with the same dedup
key, payload `[1, 2, 3]`. -/
def c10Batch : LogBatch :=
  { agentId := "agent-1", batchId := 3, timestampMs := 0,
    logs := [entryA, entryB], compression := .zstd,
    compressedPayload := [1, 2, 3], originalSize := 6, metadata := [] }

/-- Decoder oracle for the C10 witness: the payload decodes to six bytes. -/
def c10Decode (bs : List Nat) : Except String (List Nat) :=
  if bs == [1, 2, 3] then Except.ok [9, 9, 9, 9, 9, 9] else Except.error "corrupt"

/-- Marshal-size oracle; irrelevant on the ZSTD path, where it is never
consulted. -/
def marshalLen0 (_e : LogEntry) : Nat := 0

/-- C10 witness: on the concrete batch the first entry is submitted, its
duplicate-keyed companion is not, and the six decoded bytes surface only in
`bytes_decompressed`. -/
theorem c10_decoded_bytes_only_metrics_witness :
    (processBatch c10Decode marshalLen0 initialServer 0 c10Batch).submitted =
      [entryA] ∧
    (processBatch c10Decode marshalLen0 initialServer 0 c10Batch).state.metrics.bytesDecompressed = 6 ∧
    (processBatch c10Decode marshalLen0 initialServer 0 c10Batch).submitted.Sublist
      c10Batch.logs := by
  have h := c10_decoded_bytes_only_metrics c10Decode marshalLen0 initialServer 0
    c10Batch [9, 9, 9, 9, 9, 9] rfl (by decide) rfl
  refine ⟨?_, ?_, h.2⟩
  · rw [h.1]
    rfl
  · rw [h.1]
    rfl

/-! ## Claim C6 -/

/-- Corrupt ZSTD batch for C6: four payload bytes, two log entries. -/
def c6Batch : LogBatch :=
  { agentId := "agent-1", batchId := 7, timestampMs := 0,
    logs := [entryA, entryB], compression := .zstd,
    compressedPayload := [40, 181, 47, 253], originalSize := 120,
    metadata := [] }

/-- Decoder oracle for C6: decompression always fails. -/
def c6Decode (_bs : List Nat) : Except String (List Nat) :=
  Except.error "invalid input: magic number mismatch"

/-- C6, counterexample: the claim also asserts that a decompression-failed
counter is incremented.  The full metric state after a corrupt batch shows
the service has no such counter: the only counters that change are
`batches_received`, `logs_received` and `bytes_received` — pure receipt
accounting that changes identically for batches that decompress fine — and
every remaining counter (`logs_processed`, `logs_duplicate`, `logs_inserted`,
`inserts_failed`, `bytes_decompressed`) is untouched. -/
theorem c6_counterexample :
    (processBatch c6Decode marshalLen0 initialServer 0 c6Batch).ack =
      { batchId := 7, status := AckStatus.retry,
        message := "Decompression failed: invalid input: magic number mismatch" } ∧
    (processBatch c6Decode marshalLen0 initialServer 0 c6Batch).submitted = [] ∧
    (processBatch c6Decode marshalLen0 initialServer 0 c6Batch).state.metrics =
      { batchesReceived := 1, logsReceived := 2, logsProcessed := 0,
        logsDuplicate := 0, logsInserted := 0, insertsFailed := 0,
        bytesReceived := 4, bytesDecompressed := 0 } :=
  ⟨rfl, rfl, rfl⟩

/-- C6, amended: on a ZSTD batch whose payload fails to decompress, the
service replies with a RETRY ack carrying the diagnostic, submits none of the
batch's entries, leaves the dedup cache untouched, increments exactly
`batches_received`, `logs_received` and `bytes_received` (there is no
decompression-failure counter to increment), and continues with the next
batch of the stream from the updated state. -/
theorem c6_retry_on_decode_failure (decode : List Nat → Except String (List Nat))
    (marshalSize : LogEntry → Nat) (st : ServerState) (now : Int)
    (batch : LogBatch) (msg : String) (rest : List (Int × LogBatch))
    (hc : batch.compression = CompressionType.zstd)
    (hp : batch.compressedPayload ≠ [])
    (hd : decode batch.compressedPayload = Except.error msg) :
    (processBatch decode marshalSize st now batch).ack =
      { batchId := batch.batchId, status := AckStatus.retry,
        message := "Decompression failed: " ++ msg } ∧
    (processBatch decode marshalSize st now batch).submitted = [] ∧
    (processBatch decode marshalSize st now batch).state =
      { st with
        metrics :=
          { st.metrics with
            batchesReceived := st.metrics.batchesReceived + 1,
            logsReceived := st.metrics.logsReceived + batch.logs.length,
            bytesReceived :=
              st.metrics.bytesReceived + batch.compressedPayload.length } } ∧
    processStream decode marshalSize st ((now, batch) :: rest) =
      ((processStream decode marshalSize
          (processBatch decode marshalSize st now batch).state rest).1,
       (processBatch decode marshalSize st now batch).ack ::
         (processStream decode marshalSize
           (processBatch decode marshalSize st now batch).state rest).2.1,
       (processStream decode marshalSize
         (processBatch decode marshalSize st now batch).state rest).2.2) := by
  have heq := processBatch_zstd_error decode marshalSize st now batch msg hc hp hd
  refine ⟨by rw [heq], by rw [heq], by rw [heq], ?_⟩
  simp only [processStream]
  rw [show (processBatch decode marshalSize st now batch).submitted = [] from by rw [heq]]
  rw [List.nil_append]

/-- C6 witness: the amended theorem at the concrete corrupt batch, on an
empty remaining stream. -/
theorem c6_retry_on_decode_failure_witness :
    (processBatch c6Decode marshalLen0 initialServer 0 c6Batch).ack =
      { batchId := c6Batch.batchId, status := AckStatus.retry,
        message := "Decompression failed: invalid input: magic number mismatch" } ∧
    (processBatch c6Decode marshalLen0 initialServer 0 c6Batch).submitted = [] :=
  have h := c6_retry_on_decode_failure c6Decode marshalLen0 initialServer 0
    c6Batch "invalid input: magic number mismatch" [] rfl (by decide) rfl
  ⟨h.1, h.2.1⟩

/-! ## Claim C8 -/

/-- ZSTD payload of 20 bytes for the C8 counterexample (zstd expands
incompressible or tiny inputs, so a frame can well be larger than what it
decodes to). -/
def c8Payload : List Nat := List.replicate 20 170

/-- Decoder oracle for the C8 counterexample: the 20-byte payload decodes to
10 bytes. -/
def c8Decode (bs : List Nat) : Except String (List Nat) :=
  if bs == c8Payload then Except.ok (List.replicate 10 0) else Except.error "corrupt"

/-- The ZSTD batch of the C8 counterexample. -/
def c8Batch : LogBatch :=
  { agentId := "agent-1", batchId := 1, timestampMs := 0, logs := [entryA],
    compression := .zstd, compressedPayload := c8Payload, originalSize := 10,
    metadata := [] }

/-- C8, counterexample: an execution whose only batch uses ZSTD but whose
payload decodes to fewer bytes than its compressed size ends with
`bytes_decompressed = 10 < 20 = bytes_received` and
`compression_ratio = 1/2 < 1.0`, refuting both inequalities of the claim. -/
theorem c8_counterexample :
    (processStream c8Decode marshalLen0 initialServer [(0, c8Batch)]).1.metrics.bytesReceived = 20 ∧
    (processStream c8Decode marshalLen0 initialServer [(0, c8Batch)]).1.metrics.bytesDecompressed = 10 ∧
    ¬ (processStream c8Decode marshalLen0 initialServer [(0, c8Batch)]).1.metrics.bytesReceived ≤
        (processStream c8Decode marshalLen0 initialServer [(0, c8Batch)]).1.metrics.bytesDecompressed ∧
    compressionRatio (processStream c8Decode marshalLen0 initialServer [(0, c8Batch)]).1.metrics = 1 / 2 ∧
    ¬ (1 : ℚ) ≤ compressionRatio (processStream c8Decode marshalLen0 initialServer [(0, c8Batch)]).1.metrics := by
  have hm : (processStream c8Decode marshalLen0 initialServer [(0, c8Batch)]).1.metrics =
      { batchesReceived := 1, logsReceived := 1, logsProcessed := 1,
        logsDuplicate := 0, logsInserted := 0, insertsFailed := 0,
        bytesReceived := 20, bytesDecompressed := 10 } := by rfl
  refine ⟨by rw [hm], by rw [hm], by rw [hm]; decide, ?_, ?_⟩
  · rw [hm]
    norm_num [compressionRatio]
  · rw [hm]
    norm_num [compressionRatio]

/-- C8, amended: the claimed inequalities do hold on every execution in which
all received batches use ZSTD with a non-empty payload and each payload
decompresses successfully to at least its compressed size (the intended
steady state in which compression shrinks data); then
`bytes_decompressed ≥ bytes_received` and `compression_ratio ≥ 1.0`.  With an
expanding payload, or with uncompressed batches mixed in, the inequalities
can fail (see the counterexample). -/
theorem c8_ratio_when_expanding (decode : List Nat → Except String (List Nat))
    (marshalSize : LogEntry → Nat) (batches : List (Int × LogBatch))
    (h : ∀ p ∈ batches, p.2.compression = CompressionType.zstd ∧
      p.2.compressedPayload ≠ [] ∧
      ∃ d, decode p.2.compressedPayload = Except.ok d ∧
        p.2.compressedPayload.length ≤ d.length) :
    (processStream decode marshalSize initialServer batches).1.metrics.bytesReceived ≤
      (processStream decode marshalSize initialServer batches).1.metrics.bytesDecompressed ∧
    (1 : ℚ) ≤
      compressionRatio (processStream decode marshalSize initialServer batches).1.metrics := by
  have hb := processStream_bytes_mono decode marshalSize batches initialServer h
    (by decide)
  exact ⟨hb, one_le_compressionRatio _ hb⟩

/-- Decoder oracle for the C8 witness: two payload bytes decode to three. -/
def c8wDecode (bs : List Nat) : Except String (List Nat) :=
  if bs == [5, 6] then Except.ok [7, 7, 7] else Except.error "corrupt"

/-- The ZSTD batch of the C8 witness. -/
def c8wBatch : LogBatch :=
  { agentId := "agent-1", batchId := 1, timestampMs := 0, logs := [entryA],
    compression := .zstd, compressedPayload := [5, 6], originalSize := 3,
    metadata := [] }

/-- C8 witness: the amended theorem on a single genuinely shrinking batch. -/
theorem c8_ratio_when_expanding_witness :
    (processStream c8wDecode marshalLen0 initialServer [(0, c8wBatch)]).1.metrics.bytesReceived ≤
      (processStream c8wDecode marshalLen0 initialServer [(0, c8wBatch)]).1.metrics.bytesDecompressed ∧
    (1 : ℚ) ≤
      compressionRatio (processStream c8wDecode marshalLen0 initialServer [(0, c8wBatch)]).1.metrics :=
  c8_ratio_when_expanding c8wDecode marshalLen0 [(0, c8wBatch)] (by
    intro p hp
    simp only [List.mem_singleton] at hp
    subst hp
    exact ⟨rfl, by decide, [7, 7, 7], rfl, by decide⟩)

end StackMonitor
